import Mathlib

/-!
Shallow embedding of `src/tracer.py` (a runtime call-instrumentation engine).

Modelling choices, all driven by the Python source:

* A function object / its code object is identified by a natural number
  `FnId`; in the source, function identity is Python object identity and the
  trace hook matches `traced_func.__code__ is code`, which for distinct
  functions is exactly equality of our token.
* Python `float` durations and timestamps become `ℚ`; `float('inf')` (the
  initial `min_time`) becomes `⊤ : WithTop ℚ`, with `min`/`≤` on `WithTop ℚ`
  mirroring IEEE comparisons between finite values and `inf`.
* Python `dict` (insertion ordered, update-in-place or append) becomes an
  association list with `aset` / `alookup` / `aremove` below; Python `set`
  becomes a duplicate-free list with `insertSet` (iteration order of a set is
  arbitrary in Python; the list order is one admissible determinization).
* `self._stats` is a `defaultdict(FunctionStats)` whose *values are mutable
  objects*: `dict(self._stats)` copies the key → object bindings but not the
  objects.  We model the object layer explicitly: `stats` maps `FnId` to an
  index (a reference) into a `heap : List FunctionStats`; `dict(self._stats)`
  is a copy of the reference map, and mutating a `FunctionStats` is a
  `List.set` on the heap.
* `sys.settrace` events become an explicit event stream (`TEvent`); the hook
  returns the local trace function only for frames whose `call` event matched
  a traced function, so a `return` event is acted on exactly when its frame id
  is in `_call_stack` — which is how `traceStep` is guarded.
* Exceptions become `Except String`; `update_functions` returns the state at
  the moment of the raise (the `raise` is its first statement) paired with
  `Option String` for the error.
* The closure `wrapped_function` in `_setup_builtin_tracing` closes over the
  *loop variable* `func` (late binding): every wrapper created in one call of
  `_setup_builtin_tracing` reads, at call time, the value `func` had after the
  loop finished, i.e. the last element iterated.  We model each call of
  `_setup_builtin_tracing` as a "pass" whose shared cell (`passes.get? pid`)
  holds that final value, and each installed wrapper stores only its pass id.
-/

/-- Identity token of a Python function object (and of its code object). -/
abbrev FnId := Nat

/-- `FunctionStats` dataclass from `src/tracer.py` (lines 10–21).
`min_time` starts at `float('inf')`, modelled as `⊤ : WithTop ℚ`. -/
structure FunctionStats where
  call_count : Nat
  total_time : ℚ
  min_time : WithTop ℚ
  max_time : ℚ
deriving DecidableEq, Repr

/-- The dataclass field defaults: `0, 0.0, float('inf'), 0.0`. -/
def FunctionStats.init : FunctionStats := ⟨0, 0, ⊤, 0⟩

/-- The `avg_time` property: `total_time / call_count if call_count > 0 else 0`. -/
def FunctionStats.avg_time (s : FunctionStats) : ℚ :=
  if s.call_count > 0 then s.total_time / s.call_count else 0

/-- The four-line stats update shared by `wrapped_function` (lines 190–193)
and `_trace_function` (lines 265–268): increment the count, add the duration,
fold it into min and max. -/
def recordStats (s : FunctionStats) (d : ℚ) : FunctionStats :=
  { call_count := s.call_count + 1
    total_time := s.total_time + d
    min_time := min s.min_time (d : WithTop ℚ)
    max_time := max s.max_time d }

section AList

variable {α β : Type} [DecidableEq α]

/-- Lookup in an insertion-ordered dictionary (Python `dict.__getitem__`). -/
def alookup : List (α × β) → α → Option β
  | [], _ => none
  | (a, b) :: t, k => if a = k then some b else alookup t k

/-- Dictionary write (`d[k] = v`): replace in place if the key exists,
otherwise append — exactly Python's insertion-order semantics. -/
def aset : List (α × β) → α → β → List (α × β)
  | [], k, v => [(k, v)]
  | (a, b) :: t, k, v => if a = k then (k, v) :: t else (a, b) :: aset t k v

/-- Dictionary removal (`d.pop(k)`): drop the first binding of `k`. -/
def aremove : List (α × β) → α → List (α × β)
  | [], _ => []
  | (a, b) :: t, k => if a = k then t else (a, b) :: aremove t k

/-- Python `set.add`: a no-op when the element is present. -/
def insertSet (l : List α) (x : α) : List α := if x ∈ l then l else l ++ [x]

end AList

/-- What a module attribute (a binding location) currently resolves to:
the module's own original function, a wrapper installed by some pass of
`_setup_builtin_tracing`, or a foreign object installed by a third party. -/
inductive Binding where
  | orig (f : FnId)
  | wrap (passId : Nat)
  | foreign (n : Nat)
deriving DecidableEq, Repr

/-- The mutable state of a `FunctionTracer` instance plus the module bindings
it manipulates via `setattr`.  A binding location absent from `env` still
holds its original definition (see `invokeAt`). -/
structure TracerState where
  /-- `self._enabled` -/
  enabled : Bool
  /-- `self._decorated_functions` -/
  decorated : List FnId
  /-- `self._traced_functions` -/
  traced : List FnId
  /-- `self._builtin_functions` -/
  builtins : List FnId
  /-- `self._stats`: `FnId` → reference into `heap` -/
  stats : List (FnId × Nat)
  /-- the `FunctionStats` objects themselves -/
  heap : List FunctionStats
  /-- `self._call_stack`: `id(frame)` → `(func, start_time)` -/
  callStack : List (Nat × (FnId × ℚ))
  /-- `self._original_builtins` -/
  originals : List (FnId × FnId)
  /-- `self._wrapped_builtins`: `FnId` → pass id of its wrapper closure -/
  wrapped : List (FnId × Nat)
  /-- final loop-variable value of each `_setup_builtin_tracing` pass -/
  passes : List FnId
  /-- module attribute bindings touched by `setattr` -/
  env : List (FnId × Binding)
deriving DecidableEq, Repr

/-- `FunctionTracer.__init__`. -/
def initState : TracerState :=
  ⟨false, [], [], [], [], [], [], [], [], [], []⟩

/-- `stats = self._stats[func]` on the `defaultdict`: return the reference
for `func`, creating a fresh default object when absent. -/
def statsRef (st : TracerState) (f : FnId) : TracerState × Nat :=
  match alookup st.stats f with
  | some r => (st, r)
  | none =>
      ({ st with stats := st.stats ++ [(f, st.heap.length)],
                 heap := st.heap ++ [FunctionStats.init] },
       st.heap.length)

/-- The full recording block: fetch (or create) the `FunctionStats` object
for `func` and mutate it in place with `recordStats`. -/
def recordCall (st : TracerState) (f : FnId) (d : ℚ) : TracerState :=
  let p := statsRef st f
  { p.1 with
    heap := p.1.heap.set p.2 (recordStats (p.1.heap[p.2]?.getD FunctionStats.init) d) }

/-- One step of the loop body of `_setup_builtin_tracing` (lines 174–208):
skip if already wrapped, else save the original, register the wrapper
(which belongs to pass `pid`) and install it at the binding location. -/
def setupBuiltinStep (pid : Nat) (st : TracerState) (f : FnId) : TracerState :=
  if (alookup st.wrapped f).isSome then st
  else
    { st with originals := aset st.originals f f,
              wrapped := aset st.wrapped f pid,
              env := aset st.env f (.wrap pid) }

/-- `FunctionTracer._setup_builtin_tracing`.  The loop variable `func` is
shared by every closure defined in the loop; after the loop it holds the last
element of `self._builtin_functions`, so the pass cell records `getLast?`. -/
def setupBuiltinTracing (st : TracerState) : TracerState :=
  match st.builtins.getLast? with
  | none => st
  | some lastF =>
      let st1 := st.builtins.foldl (setupBuiltinStep st.passes.length) st
      { st1 with passes := st1.passes ++ [lastF] }

/-- `FunctionTracer._restore_builtin_functions` (lines 210–226): for every
saved original, `setattr` it back unconditionally, then clear the three
builtin bookkeeping dicts/sets. -/
def restoreBuiltinFunctions (st : TracerState) : TracerState :=
  { st with
    env := st.originals.foldl (fun e p => aset e p.1 (Binding.orig p.2)) st.env,
    builtins := [], originals := [], wrapped := [] }

/-- The classification loop shared by `enable` and `update_functions`:
`_is_builtin_function` is the runtime predicate
`not hasattr(func, '__code__') and callable(func)`, passed in as `isB`. -/
def classifyTargets (isB : FnId → Bool) (fns : List FnId) (st : TracerState) : TracerState :=
  fns.foldl
    (fun s f =>
      if isB f then { s with builtins := insertSet s.builtins f }
      else { s with traced := insertSet s.traced f })
    st

/-- `FunctionTracer.update_functions` (lines 128–149).  The returned state is
the receiver's state when the call finishes or raises; the `raise` is the
first statement, so on error the state is unchanged. -/
def update_functions (isB : FnId → Bool) (fns : List FnId) (st : TracerState) :
    TracerState × Option String :=
  if ¬ st.enabled then (st, some "Tracing is not enabled")
  else
    let st1 := restoreBuiltinFunctions st
    let st2 := { st1 with traced := st1.decorated, builtins := [] }
    let st3 := classifyTargets isB fns st2
    (setupBuiltinTracing st3, none)

/-- `FunctionTracer.enable` (lines 79–107).  `fns = none` models
`functions=None`; when already enabled and `functions is not None` it
delegates to `update_functions` (which cannot raise there). -/
def enable (isB : FnId → Bool) (fns : Option (List FnId)) (st : TracerState) : TracerState :=
  if st.enabled then
    match fns with
    | some fs => (update_functions isB fs st).1
    | none => st
  else
    let st1 := { st with traced := st.decorated }
    let st2 := match fns with
      | none => st1
      | some fs => classifyTargets isB fs st1
    let st3 := setupBuiltinTracing st2
    { st3 with enabled := true }

/-- `FunctionTracer.disable` (lines 109–126): returns `dict(self._stats)` —
a copy of the key → object-reference map, not of the objects. -/
def disable (st : TracerState) : TracerState × List (FnId × Nat) :=
  if ¬ st.enabled then (st, st.stats)
  else
    let st1 := restoreBuiltinFunctions st
    let st2 := { st1 with enabled := false, callStack := [] }
    (st2, st2.stats)

/-- `FunctionTracer.get_results` (lines 151–158): `dict(self._stats)`. -/
def get_results (st : TracerState) : List (FnId × Nat) := st.stats

/-- Read one entry of a returned snapshot: follow its saved reference into
the (current) heap of `FunctionStats` objects. -/
def snapLookup (heap : List FunctionStats) (snap : List (FnId × Nat)) (f : FnId) :
    Option FunctionStats :=
  (alookup snap f).bind fun r => heap[r]?

/-- The `call_count` currently recorded for `f` (0 when no entry exists). -/
def countOf (st : TracerState) (f : FnId) : Nat :=
  ((snapLookup st.heap st.stats f).map FunctionStats.call_count).getD 0

/-- A `sys.settrace` event as delivered to `_trace_function`: the frame is
represented by `id(frame)`, the frame's code object by the `FnId` of the
function it belongs to, and the wall clock by the timestamp `t` that
`time.perf_counter()` returns at that moment.  `other` covers the `'line'`
and `'exception'` events, which the hook ignores. -/
inductive TEvent where
  | call (frameId : Nat) (code : FnId) (t : ℚ)
  | ret (frameId : Nat) (t : ℚ)
  | other
deriving DecidableEq, Repr

/-- `FunctionTracer._trace_function` (lines 228–272).  On `'call'`, the scan
over `self._traced_functions` comparing `traced_func.__code__ is code` is a
membership test on our identity tokens; a hit pushes
`(func, perf_counter())` keyed by `id(frame)` and returns the local trace
function (so the frame's `'return'` event is delivered — equivalently, a
`'return'` acts exactly when its frame id is in `_call_stack`).  On
`'return'` with a matching entry, pop it and record the elapsed duration. -/
def trace_function (st : TracerState) (e : TEvent) : TracerState :=
  match e with
  | .call fid code t =>
      if code ∈ st.traced then { st with callStack := aset st.callStack fid (code, t) }
      else st
  | .ret fid t =>
      match alookup st.callStack fid with
      | none => st
      | some (f, start) =>
          recordCall { st with callStack := aremove st.callStack fid } f (t - start)
  | .other => st

/-- Process a stream of trace events. -/
def runEvents (st : TracerState) (es : List TEvent) : TracerState :=
  es.foldl trace_function st

/-- Invoke the wrapper closure of pass `pid` (the body of `wrapped_function`,
lines 180–195).  `beh f` is what calling the original object `f` does: return
a value or raise.  The closure first reads the shared loop variable — the
pass cell — to find which original to call and under which key to record.
An exception from the original propagates with no recording (there is no
`try`/`finally` around the call). -/
def invokeWrapper (beh : FnId → Except String Nat) (pid : Nat) (d : ℚ)
    (st : TracerState) : TracerState × Except String Nat :=
  match st.passes[pid]? with
  | none => (st, Except.error "dangling wrapper")
  | some f =>
      if ¬ st.enabled then (st, beh f)
      else
        match beh f with
        | Except.error e => (st, Except.error e)
        | Except.ok v => (recordCall st f d, Except.ok v)

/-- Call through a binding location, the way client code calls
`module.name(...)`: resolve what the name is currently bound to and invoke
it.  An absent `env` entry means the module still holds its own original. -/
def invokeAt (beh : FnId → Except String Nat) (loc : FnId) (d : ℚ)
    (st : TracerState) : TracerState × Except String Nat :=
  match alookup st.env loc with
  | some (.wrap pid) => invokeWrapper beh pid d st
  | some (.orig f) => (st, beh f)
  | some (.foreign n) => (st, Except.ok n)
  | none => (st, beh loc)

/-- A third party rebinding a module attribute out from under the tracer
(the "foreign rebind" scenario of the spec's restore clause). -/
def foreignRebind (loc : FnId) (n : Nat) (st : TracerState) : TracerState :=
  { st with env := aset st.env loc (.foreign n) }

/-- Every reference held in `stats` points inside the heap. -/
def StatsWF (st : TracerState) : Prop :=
  ∀ p ∈ st.stats, p.2 < st.heap.length

/-- Every `FunctionStats` object reachable through the reference map has been
recorded into at least once. -/
def StoreCountPos (st : TracerState) : Prop :=
  ∀ f r s, alookup st.stats f = some r → st.heap[r]? = some s → 1 ≤ s.call_count

/-- The aggregate a single `FunctionStats` object holds after a sequence of
recording operations, starting from the dataclass defaults. -/
def statsOf (ds : List ℚ) : FunctionStats :=
  ds.foldl recordStats FunctionStats.init

/-- Shape invariant of a `FunctionStats` object under non-negative recorded
durations: `max_time` stays non-negative, a zero count means the pristine
defaults, and a positive count means `min_time` is finite with
`min_time * count ≤ total_time ≤ max_time * count`. -/
def StatsBounds (s : FunctionStats) : Prop :=
  0 ≤ s.max_time ∧
  (s.call_count = 0 → s.total_time = 0 ∧ s.min_time = ⊤) ∧
  (0 < s.call_count → ∃ m : ℚ, s.min_time = (m : WithTop ℚ) ∧
      m * s.call_count ≤ s.total_time ∧ s.total_time ≤ s.max_time * s.call_count)

/-- The event stream `sys.settrace` delivers for a recursive self-call chain
of depth `d` of function `f`: the activation at depth `i` runs in its own
frame (id `k + i`), so its entry and exit are keyed independently of every
other activation's.  All timestamps are 0 — only correlation and counting
matter here. -/
def recChain (f : FnId) : Nat → Nat → List TEvent
  | _, 0 => []
  | k, d+1 => .call k f 0 :: (recChain f (k+1) d ++ [.ret k 0])

/-- All tracer states a `FunctionTracer` instance can be driven into: the
public lifecycle calls, the `sys.settrace` callback firing on an event, a
wrapper closure being invoked, and a third party rebinding a module
attribute. -/
inductive Reachable : TracerState → Prop
  | init : Reachable initState
  | enable (isB : FnId → Bool) (fns : Option (List FnId)) (st : TracerState) :
      Reachable st → Reachable (enable isB fns st)
  | disable (st : TracerState) : Reachable st → Reachable (disable st).1
  | update (isB : FnId → Bool) (fns : List FnId) (st : TracerState) :
      Reachable st → Reachable (update_functions isB fns st).1
  | hookEvent (st : TracerState) (e : TEvent) :
      Reachable st → Reachable (trace_function st e)
  | wrapperCall (beh : FnId → Except String Nat) (pid : Nat) (d : ℚ)
      (st : TracerState) : Reachable st → Reachable (invokeWrapper beh pid d st).1
  | rebind (loc : FnId) (n : Nat) (st : TracerState) :
      Reachable st → Reachable (foreignRebind loc n st)

/-- Classifier for scenarios where every target has a `__code__` attribute
(`_is_builtin_function` answers `False`). -/
def isHookable : FnId → Bool := fun _ => false

/-- Classifier for scenarios where every target is a builtin
(`_is_builtin_function` answers `True`). -/
def isOpaque : FnId → Bool := fun _ => true

/-- Scenario: enable with one hookable target (function 5), then one traced
call of duration 2 (frame 100, entry at time 0, exit at time 2). -/
def sessionOne : TracerState :=
  runEvents (enable isHookable (some [5]) initState)
    [TEvent.call 100 5 0, TEvent.ret 100 2]

/-- Scenario: two opaque targets (0 and 1) wrapped in the same enable pass. -/
def twoOpaque : TracerState := enable isOpaque (some [0, 1]) initState

/-- Behavior of the saved original callables: calling original `f` returns
`100 + f`. -/
def behOk : FnId → Except String Nat := fun f => Except.ok (100 + f)

/-- Scenario: a single opaque target (function 7) wrapped by enable. -/
def oneOpaque : TracerState := enable isOpaque (some [7]) initState

/-- Behavior where every original callable raises. -/
def behBoom : FnId → Except String Nat := fun _ => Except.error "boom"

/-! ### Association-list lemmas -/

section AListLemmas

variable {α β : Type} [DecidableEq α]

theorem alookup_aset_self (l : List (α × β)) (k : α) (v : β) :
    alookup (aset l k v) k = some v := by
  induction l with
  | nil => simp [aset, alookup]
  | cons p t ih =>
      by_cases h : p.1 = k
      · simp [aset, h, alookup]
      · simp [aset, h, alookup, ih]

theorem alookup_aset_ne (l : List (α × β)) {a k : α} (v : β) (h : a ≠ k) :
    alookup (aset l k v) a = alookup l a := by
  induction l with
  | nil => simp [aset, alookup, Ne.symm h]
  | cons p t ih =>
      obtain ⟨pa, pb⟩ := p
      by_cases hp : pa = k
      · subst hp
        simp [aset, alookup, Ne.symm h]
      · simp [aset, alookup, hp, ih]

theorem aset_of_alookup_none {l : List (α × β)} {k : α} (v : β)
    (h : alookup l k = none) : aset l k v = l ++ [(k, v)] := by
  induction l with
  | nil => rfl
  | cons p t ih =>
      by_cases hp : p.1 = k
      · simp [alookup, hp] at h
      · simp only [alookup, if_neg hp] at h
        simp [aset, hp, ih h]

theorem alookup_append_left {l : List (α × β)} (m : List (α × β)) {k : α} {v : β}
    (h : alookup l k = some v) : alookup (l ++ m) k = some v := by
  induction l with
  | nil => simp [alookup] at h
  | cons p t ih =>
      by_cases hp : p.1 = k
      · simp [alookup, hp] at h ⊢; exact h
      · simp only [alookup, if_neg hp] at h ⊢
        exact ih h

theorem alookup_append_right {l : List (α × β)} (m : List (α × β)) {k : α}
    (h : alookup l k = none) : alookup (l ++ m) k = alookup m k := by
  induction l with
  | nil => simp
  | cons p t ih =>
      by_cases hp : p.1 = k
      · simp [alookup, hp] at h
      · simp only [alookup, if_neg hp] at h ⊢
        exact ih h

theorem aremove_append {l : List (α × β)} {k : α} (v : β)
    (h : alookup l k = none) : aremove (l ++ [(k, v)]) k = l := by
  induction l with
  | nil => simp [aremove]
  | cons p t ih =>
      by_cases hp : p.1 = k
      · simp [alookup, hp] at h
      · simp only [alookup, if_neg hp] at h
        simp [aremove, hp, ih h]

end AListLemmas

/-! ### Projection lemmas: which fields each operation leaves untouched -/

theorem foldl_proj {σ α τ : Type} (P : σ → τ) (g : σ → α → σ)
    (h : ∀ s x, P (g s x) = P s) (l : List α) (s : σ) : P (l.foldl g s) = P s := by
  induction l generalizing s with
  | nil => rfl
  | cons x t ih => rw [List.foldl_cons, ih, h]

theorem statsRef_cases (st : TracerState) (f : FnId) :
    (∃ r, alookup st.stats f = some r ∧ statsRef st f = (st, r)) ∨
    (alookup st.stats f = none ∧
      statsRef st f =
        ({ st with stats := st.stats ++ [(f, st.heap.length)],
                   heap := st.heap ++ [FunctionStats.init] }, st.heap.length)) := by
  cases h : alookup st.stats f with
  | none => exact Or.inr ⟨rfl, by simp [statsRef, h]⟩
  | some r => exact Or.inl ⟨r, rfl, by simp [statsRef, h]⟩

theorem recordCall_enabled (st : TracerState) (f : FnId) (d : ℚ) :
    (recordCall st f d).enabled = st.enabled := by
  rcases statsRef_cases st f with ⟨r, _, h⟩ | ⟨_, h⟩ <;> simp [recordCall, h]

theorem recordCall_traced (st : TracerState) (f : FnId) (d : ℚ) :
    (recordCall st f d).traced = st.traced := by
  rcases statsRef_cases st f with ⟨r, _, h⟩ | ⟨_, h⟩ <;> simp [recordCall, h]

theorem recordCall_callStack (st : TracerState) (f : FnId) (d : ℚ) :
    (recordCall st f d).callStack = st.callStack := by
  rcases statsRef_cases st f with ⟨r, _, h⟩ | ⟨_, h⟩ <;> simp [recordCall, h]

theorem classifyTargets_stats (isB : FnId → Bool) (fns : List FnId) (st : TracerState) :
    (classifyTargets isB fns st).stats = st.stats :=
  foldl_proj TracerState.stats _ (fun s f => by by_cases h : isB f <;> simp [h]) fns st

theorem classifyTargets_heap (isB : FnId → Bool) (fns : List FnId) (st : TracerState) :
    (classifyTargets isB fns st).heap = st.heap :=
  foldl_proj TracerState.heap _ (fun s f => by by_cases h : isB f <;> simp [h]) fns st

theorem setupBuiltinStep_stats (pid : Nat) (st : TracerState) (f : FnId) :
    (setupBuiltinStep pid st f).stats = st.stats := by
  by_cases h : (alookup st.wrapped f).isSome <;> simp [setupBuiltinStep, h]

theorem setupBuiltinStep_heap (pid : Nat) (st : TracerState) (f : FnId) :
    (setupBuiltinStep pid st f).heap = st.heap := by
  by_cases h : (alookup st.wrapped f).isSome <;> simp [setupBuiltinStep, h]

theorem setupBuiltinTracing_stats (st : TracerState) :
    (setupBuiltinTracing st).stats = st.stats := by
  unfold setupBuiltinTracing
  cases h : st.builtins.getLast? with
  | none => rfl
  | some lastF =>
      simp only
      rw [show (∀ s, (st.builtins.foldl (setupBuiltinStep st.passes.length) s).stats = s.stats)
            from fun s => foldl_proj TracerState.stats _
              (fun s f => setupBuiltinStep_stats _ s f) _ s]

theorem setupBuiltinTracing_heap (st : TracerState) :
    (setupBuiltinTracing st).heap = st.heap := by
  unfold setupBuiltinTracing
  cases h : st.builtins.getLast? with
  | none => rfl
  | some lastF =>
      simp only
      rw [show (∀ s, (st.builtins.foldl (setupBuiltinStep st.passes.length) s).heap = s.heap)
            from fun s => foldl_proj TracerState.heap _
              (fun s f => setupBuiltinStep_heap _ s f) _ s]

theorem update_functions_stats (isB : FnId → Bool) (fns : List FnId) (st : TracerState) :
    (update_functions isB fns st).1.stats = st.stats := by
  by_cases h : st.enabled <;>
    simp [update_functions, h, setupBuiltinTracing_stats, classifyTargets_stats,
      restoreBuiltinFunctions]

theorem update_functions_heap (isB : FnId → Bool) (fns : List FnId) (st : TracerState) :
    (update_functions isB fns st).1.heap = st.heap := by
  by_cases h : st.enabled <;>
    simp [update_functions, h, setupBuiltinTracing_heap, classifyTargets_heap,
      restoreBuiltinFunctions]

theorem enable_stats (isB : FnId → Bool) (fns : Option (List FnId)) (st : TracerState) :
    (enable isB fns st).stats = st.stats := by
  by_cases h : st.enabled
  · cases fns <;> simp [enable, h, update_functions_stats]
  · cases fns <;>
      simp [enable, h, setupBuiltinTracing_stats, classifyTargets_stats]

theorem enable_heap (isB : FnId → Bool) (fns : Option (List FnId)) (st : TracerState) :
    (enable isB fns st).heap = st.heap := by
  by_cases h : st.enabled
  · cases fns <;> simp [enable, h, update_functions_heap]
  · cases fns <;>
      simp [enable, h, setupBuiltinTracing_heap, classifyTargets_heap]

theorem disable_fst_stats (st : TracerState) : (disable st).1.stats = st.stats := by
  by_cases h : st.enabled <;> simp [disable, h, restoreBuiltinFunctions]

theorem disable_fst_heap (st : TracerState) : (disable st).1.heap = st.heap := by
  by_cases h : st.enabled <;> simp [disable, h, restoreBuiltinFunctions]

theorem disable_fst_enabled (st : TracerState) : (disable st).1.enabled = false := by
  by_cases h : st.enabled <;> simp [disable, h, restoreBuiltinFunctions]

/-! ### Heap discipline: recording, well-formedness, call counts -/

theorem setAppendLength {α : Type} (l : List α) (a b : α) :
    (l ++ [a]).set l.length b = l ++ [b] := by
  induction l with
  | nil => rfl
  | cons x t ih => simp [List.set, ih]

/-- `recordCall` when the function already has an entry: same reference map,
its object overwritten in place. -/
theorem recordCall_of_mem {st : TracerState} {f : FnId} {r : Nat} {s : FunctionStats}
    (h1 : alookup st.stats f = some r) (h2 : st.heap[r]? = some s) (d : ℚ) :
    recordCall st f d = { st with heap := st.heap.set r (recordStats s d) } := by
  simp [recordCall, statsRef, h1, h2]

/-- `recordCall` when the function has no entry yet: the `defaultdict`
creates a fresh object, which is immediately updated. -/
theorem recordCall_of_not_mem {st : TracerState} {f : FnId}
    (h1 : alookup st.stats f = none) (d : ℚ) :
    recordCall st f d =
      { st with stats := st.stats ++ [(f, st.heap.length)],
                heap := st.heap ++ [recordStats FunctionStats.init d] } := by
  have hget : (st.heap ++ [FunctionStats.init])[st.heap.length]? = some FunctionStats.init := by
    rw [List.getElem?_append_right le_rfl]; simp
  simp only [recordCall, statsRef, h1]
  simp [hget, setAppendLength]

theorem alookup_mem {α β : Type} [DecidableEq α] {l : List (α × β)} {k : α} {v : β}
    (h : alookup l k = some v) : (k, v) ∈ l := by
  induction l with
  | nil => simp [alookup] at h
  | cons p t ih =>
      obtain ⟨pa, pb⟩ := p
      by_cases hp : pa = k
      · simp only [alookup, if_pos hp] at h
        simp_all
      · simp only [alookup, if_neg hp] at h
        exact List.mem_cons_of_mem _ (ih h)

theorem StatsWF.refLt {st : TracerState} (h : StatsWF st) {f : FnId} {r : Nat}
    (h1 : alookup st.stats f = some r) : r < st.heap.length :=
  h _ (alookup_mem h1)

theorem statsWF_recordCall {st : TracerState} (h : StatsWF st) (f : FnId) (d : ℚ) :
    StatsWF (recordCall st f d) := by
  cases h1 : alookup st.stats f with
  | some r =>
      have hr : r < st.heap.length := h.refLt h1
      have h2 : st.heap[r]? = some st.heap[r] := List.getElem?_eq_getElem hr
      rw [recordCall_of_mem h1 h2]
      intro p hp
      simpa using h p hp
  | none =>
      rw [recordCall_of_not_mem h1]
      intro p hp
      simp only [List.mem_append, List.mem_singleton] at hp
      rcases hp with hp | hp
      · have := h p hp
        simp only [List.length_append, List.length_singleton]
        omega
      · subst hp
        simp

theorem countOf_recordCall {st : TracerState} (h : StatsWF st) (f : FnId) (d : ℚ) :
    countOf (recordCall st f d) f = countOf st f + 1 := by
  cases h1 : alookup st.stats f with
  | some r =>
      have hr : r < st.heap.length := h.refLt h1
      have h2 : st.heap[r]? = some st.heap[r] := List.getElem?_eq_getElem hr
      rw [recordCall_of_mem h1 h2]
      simp [countOf, snapLookup, h1, h2, List.getElem?_set_eq_of_lt _ hr, recordStats]
  | none =>
      rw [recordCall_of_not_mem h1]
      have hset : alookup (st.stats ++ [(f, st.heap.length)]) f = some st.heap.length := by
        rw [alookup_append_right _ h1]
        simp [alookup]
      have hget : (st.heap ++ [recordStats FunctionStats.init d])[st.heap.length]?
          = some (recordStats FunctionStats.init d) := by
        rw [List.getElem?_append_right le_rfl]; simp
      simp [countOf, snapLookup, h1, hset, hget, recordStats, FunctionStats.init]

/-! ### Recursive call chains (hookable path) -/

theorem runEvents_append (st : TracerState) (l1 l2 : List TEvent) :
    runEvents st (l1 ++ l2) = runEvents (runEvents st l1) l2 :=
  List.foldl_append _ _ _ _

theorem runEvents_cons (st : TracerState) (e : TEvent) (l : List TEvent) :
    runEvents st (e :: l) = runEvents (trace_function st e) l := rfl

theorem runEvents_recChain (f : FnId) (d : Nat) :
    ∀ (k : Nat) (st : TracerState),
      f ∈ st.traced →
      (∀ j, k ≤ j → alookup st.callStack j = none) →
      StatsWF st →
      (runEvents st (recChain f k d)).callStack = st.callStack ∧
      (runEvents st (recChain f k d)).traced = st.traced ∧
      StatsWF (runEvents st (recChain f k d)) ∧
      countOf (runEvents st (recChain f k d)) f = countOf st f + d := by
  induction d with
  | zero =>
      intro k st hf hcs hwf
      exact ⟨rfl, rfl, hwf, rfl⟩
  | succ d ih =>
      intro k st hf hcs hwf
      have ha : trace_function st (.call k f 0)
          = { st with callStack := st.callStack ++ [(k, (f, 0))] } := by
        simp [trace_function, hf, aset_of_alookup_none _ (hcs k le_rfl)]
      rw [show recChain f k (d+1) = .call k f 0 :: (recChain f (k+1) d ++ [.ret k 0]) from rfl,
        runEvents_cons, ha, runEvents_append]
      set sta : TracerState := { st with callStack := st.callStack ++ [(k, (f, 0))] } with hsta
      have hcs' : ∀ j, k + 1 ≤ j → alookup sta.callStack j = none := by
        intro j hj
        rw [hsta]
        simp only
        rw [alookup_append_right _ (hcs j (by omega))]
        simp [alookup, show k ≠ j by omega]
      obtain ⟨hb_cs, hb_tr, hb_wf, hb_cnt⟩ := ih (k + 1) sta hf hcs' hwf
      set stb : TracerState := runEvents sta (recChain f (k+1) d) with hstb
      have hlook : alookup stb.callStack k = some (f, 0) := by
        rw [hb_cs, hsta]
        simp only
        rw [alookup_append_right _ (hcs k le_rfl)]
        simp [alookup]
      have hrem : aremove stb.callStack k = st.callStack := by
        rw [hb_cs, hsta]
        simp only
        exact aremove_append _ (hcs k le_rfl)
      have hret : runEvents stb [.ret k 0]
          = recordCall { stb with callStack := st.callStack } f (0 - 0) := by
        simp only [runEvents, List.foldl_cons, List.foldl_nil, trace_function, hlook, hrem]
      rw [hret]
      have hwfc : StatsWF { stb with callStack := st.callStack } := hb_wf
      refine ⟨?_, ?_, ?_, ?_⟩
      · rw [recordCall_callStack]
      · rw [recordCall_traced]
        exact hb_tr
      · exact statsWF_recordCall hwfc f _
      · rw [countOf_recordCall hwfc f _]
        have : countOf { stb with callStack := st.callStack } f = countOf stb f := rfl
        rw [this, hb_cnt]
        have : countOf sta f = countOf st f := rfl
        rw [this]
        omega

/-! ### Aggregation bounds -/

theorem count_foldl_recordStats (ds : List ℚ) :
    ∀ s : FunctionStats, (ds.foldl recordStats s).call_count = s.call_count + ds.length := by
  induction ds with
  | nil => intro s; simp
  | cons d t ih =>
      intro s
      rw [List.foldl_cons, ih]
      simp [recordStats]
      omega

theorem statsBounds_init : StatsBounds FunctionStats.init := by
  refine ⟨le_refl 0, fun _ => ⟨rfl, rfl⟩, fun h => absurd h (by simp [FunctionStats.init])⟩

theorem statsBounds_record {s : FunctionStats} (hs : StatsBounds s) (d : ℚ) :
    StatsBounds (recordStats s d) := by
  obtain ⟨hmax, hzero, hpos⟩ := hs
  refine ⟨le_trans hmax (le_max_left _ _), ?_, ?_⟩
  · intro h
    simp [recordStats] at h
  · intro _
    rcases Nat.eq_zero_or_pos s.call_count with hc | hc
    · obtain ⟨ht, hm⟩ := hzero hc
      refine ⟨d, ?_, ?_, ?_⟩
      · simp [recordStats, hm]
      · simp [recordStats, hc, ht]
      · simp [recordStats, hc, ht]
    · obtain ⟨m, hm, h1, h2⟩ := hpos hc
      have hc0 : (0 : ℚ) ≤ (s.call_count : ℚ) := Nat.cast_nonneg _
      refine ⟨min m d, ?_, ?_, ?_⟩
      · simp [recordStats, hm]
      · have hml : min m d * (s.call_count : ℚ) ≤ m * (s.call_count : ℚ) :=
          mul_le_mul_of_nonneg_right (min_le_left m d) hc0
        simp only [recordStats]
        push_cast
        nlinarith [min_le_right m d]
      · have hmr : s.max_time * (s.call_count : ℚ)
            ≤ max s.max_time d * (s.call_count : ℚ) :=
          mul_le_mul_of_nonneg_right (le_max_left _ _) hc0
        simp only [recordStats]
        push_cast
        nlinarith [le_max_right s.max_time d]

theorem statsBounds_foldl (ds : List ℚ) :
    ∀ {s : FunctionStats}, StatsBounds s → StatsBounds (ds.foldl recordStats s) := by
  induction ds with
  | nil => intro s hs; exact hs
  | cons d t ih =>
      intro s hs
      rw [List.foldl_cons]
      exact ih (statsBounds_record hs d)

/-! ### Observable entries always have a positive call count -/

theorem alookup_append_cases {α β : Type} [DecidableEq α] {l m : List (α × β)} {k : α} {v : β}
    (h : alookup (l ++ m) k = some v) :
    alookup l k = some v ∨ (alookup l k = none ∧ alookup m k = some v) := by
  cases hl : alookup l k with
  | some w =>
      left
      rw [alookup_append_left m hl] at h
      exact h
  | none =>
      right
      rw [alookup_append_right m hl] at h
      exact ⟨rfl, h⟩

theorem recordCall_of_mem' {st : TracerState} {f : FnId} {r : Nat}
    (h1 : alookup st.stats f = some r) (d : ℚ) :
    recordCall st f d =
      { st with heap := st.heap.set r (recordStats (st.heap[r]?.getD FunctionStats.init) d) } := by
  simp [recordCall, statsRef, h1]

theorem storeCountPos_recordCall {st : TracerState} (h : StoreCountPos st)
    (f : FnId) (d : ℚ) : StoreCountPos (recordCall st f d) := by
  cases h1 : alookup st.stats f with
  | some r =>
      rw [recordCall_of_mem' h1 d]
      intro g r' s' hg hs'
      rcases Nat.lt_or_ge r st.heap.length with hr | hr
      · by_cases hrr : r = r'
        · subst hrr
          rw [List.getElem?_set_eq_of_lt _ hr] at hs'
          cases hs'
          simp [recordStats]
        · rw [List.getElem?_set_ne hrr] at hs'
          exact h g r' s' hg hs'
      · rw [List.set_eq_of_length_le hr] at hs'
        exact h g r' s' hg hs'
  | none =>
      rw [recordCall_of_not_mem h1 d]
      intro g r' s' hg hs'
      simp only at hg hs'
      rcases alookup_append_cases hg with hg' | ⟨_, hg'⟩
      · rcases Nat.lt_or_ge r' st.heap.length with hr | hr
        · rw [List.getElem?_append_left hr] at hs'
          exact h g r' s' hg' hs'
        · rw [List.getElem?_append_right hr] at hs'
          rcases Nat.lt_or_ge (r' - st.heap.length) 1 with hr1 | hr1
          · interval_cases h' : r' - st.heap.length
            simp at hs'
            cases hs'
            simp [recordStats]
          · rw [List.getElem?_eq_none (by simpa using hr1)] at hs'
            cases hs'
      · have hg2 : f = g ∧ st.heap.length = r' := by
          by_cases hfg : f = g
          · simpa [alookup, hfg] using hg'
          · simp [alookup, hfg] at hg'
        obtain ⟨hfg, hlen⟩ := hg2
        subst hfg
        subst hlen
        rw [List.getElem?_append_right le_rfl] at hs'
        simp at hs'
        subst hs'
        simp [recordStats]

theorem storeCountPos_congr {st st' : TracerState} (hs : st'.stats = st.stats)
    (hh : st'.heap = st.heap) (h : StoreCountPos st) : StoreCountPos st' := by
  intro f r s h1 h2
  rw [hs] at h1
  rw [hh] at h2
  exact h f r s h1 h2

theorem storeCountPos_trace {st : TracerState} (h : StoreCountPos st) (e : TEvent) :
    StoreCountPos (trace_function st e) := by
  cases e with
  | call fid code t =>
      simp only [trace_function]
      split
      · exact storeCountPos_congr rfl rfl h
      · exact h
  | ret fid t =>
      cases hl : alookup st.callStack fid with
      | none => simpa [trace_function, hl] using h
      | some p =>
          obtain ⟨pf, ps⟩ := p
          have heq : trace_function st (.ret fid t)
              = recordCall { st with callStack := aremove st.callStack fid } pf (t - ps) := by
            simp [trace_function, hl]
          have h2 : StoreCountPos { st with callStack := aremove st.callStack fid } :=
            storeCountPos_congr rfl rfl h
          rw [heq]
          exact storeCountPos_recordCall h2 _ _
  | other => exact h

theorem storeCountPos_invokeWrapper {st : TracerState} (h : StoreCountPos st)
    (beh : FnId → Except String Nat) (pid : Nat) (d : ℚ) :
    StoreCountPos (invokeWrapper beh pid d st).1 := by
  simp only [invokeWrapper]
  split
  · exact h
  · split
    · exact h
    · split
      · exact h
      · exact storeCountPos_recordCall h _ _

theorem disable_snd (st : TracerState) : (disable st).2 = get_results st := by
  by_cases h : st.enabled <;> simp [disable, get_results, h, restoreBuiltinFunctions]

theorem reachable_storeCountPos {st : TracerState} (h : Reachable st) :
    StoreCountPos st := by
  induction h with
  | init => intro f r s h1 _; simp [initState, alookup] at h1
  | enable isB fns st _ ih =>
      exact storeCountPos_congr (enable_stats isB fns st) (enable_heap isB fns st) ih
  | disable st _ ih =>
      exact storeCountPos_congr (disable_fst_stats st) (disable_fst_heap st) ih
  | update isB fns st _ ih =>
      exact storeCountPos_congr (update_functions_stats isB fns st)
        (update_functions_heap isB fns st) ih
  | hookEvent st e _ ih => exact storeCountPos_trace ih e
  | wrapperCall beh pid d st _ ih => exact storeCountPos_invokeWrapper ih beh pid d
  | rebind loc n st _ ih => exact storeCountPos_congr rfl rfl ih

/-! ### Restore loop: what the env holds afterwards -/

theorem alookup_foldl_asetOrig_of_not_mem (l : List (FnId × FnId))
    (e0 : List (FnId × Binding)) (f : FnId) (h : ∀ p ∈ l, p.1 ≠ f) :
    alookup (l.foldl (fun e p => aset e p.1 (Binding.orig p.2)) e0) f = alookup e0 f := by
  induction l generalizing e0 with
  | nil => rfl
  | cons q t ih =>
      rw [List.foldl_cons]
      rw [ih _ (fun p hp => h p (List.mem_cons_of_mem q hp))]
      exact alookup_aset_ne e0 _ (Ne.symm (h q (List.mem_cons_self q t)))

theorem alookup_foldl_asetOrig (l : List (FnId × FnId)) (f g : FnId) :
    ∀ e0 : List (FnId × Binding), (l.map Prod.fst).Nodup → alookup l f = some g →
      alookup (l.foldl (fun e p => aset e p.1 (Binding.orig p.2)) e0) f
        = some (Binding.orig g) := by
  induction l with
  | nil => intro e0 _ h; simp [alookup] at h
  | cons q t ih =>
      intro e0 hnd h
      obtain ⟨qa, qb⟩ := q
      rw [List.foldl_cons]
      simp only [List.map_cons, List.nodup_cons] at hnd
      by_cases hq : qa = f
      · subst hq
        simp only [alookup, if_pos rfl] at h
        have hg : qb = g := by simpa using h
        subst hg
        have hnotin : ∀ p ∈ t, p.1 ≠ qa := fun p hp hpq =>
          hnd.1 (hpq ▸ List.mem_map_of_mem Prod.fst hp)
        rw [alookup_foldl_asetOrig_of_not_mem t _ qa hnotin]
        exact alookup_aset_self e0 qa (Binding.orig qb)
      · simp only [alookup, if_neg hq] at h
        exact ih (aset e0 qa (Binding.orig qb)) hnd.2 h

/-! ### The claims -/

/-- Claim C1, counterexample: after one traced call (duration 2) on function
5, `disable()` followed by `enable([5])` leaves the old `FunctionStats`
entry for 5 — count 1, total 2 — fully visible through `get_results()`.
Neither `disable` nor `enable` ever clears `self._stats`, so the claimed
"fresh, empty statistics store" is false at this input. -/
theorem stats_carry_over_after_reenable :
    snapLookup (enable isHookable (some [5]) ((disable sessionOne).1)).heap
      (get_results (enable isHookable (some [5]) ((disable sessionOne).1))) 5
      = some ⟨1, 2, ((2 : ℚ) : WithTop ℚ), 2⟩ := by
  norm_num [snapLookup, get_results, enable, disable, runEvents, trace_function,
    sessionOne, isHookable, initState, classifyTargets, setupBuiltinTracing,
    restoreBuiltinFunctions, recordCall, statsRef, recordStats, alookup, aset,
    aremove, insertSet, FunctionStats.init]

/-- Claim C1, amended: disabling and re-enabling the tracer never clears the
statistics store — after `disable()` and any subsequent `enable(targets)`,
the reference map and every `FunctionStats` object are exactly those of the
previous session (there is no clearing operation anywhere in the code). -/
theorem stats_persist_across_sessions (isB : FnId → Bool) (fns : Option (List FnId))
    (st : TracerState) :
    (enable isB fns (disable st).1).stats = st.stats ∧
    (enable isB fns (disable st).1).heap = st.heap :=
  ⟨(enable_stats isB fns ((disable st).1)).trans (disable_fst_stats st),
   (enable_heap isB fns ((disable st).1)).trans (disable_fst_heap st)⟩

/-- Claim C2: wrapping the two opaque targets 0 and 1 in a single
`enable([0, 1])` pass and then calling through the binding installed *for
target 0* invokes target **1**'s original (returning its result 101) and
records the duration under target **1**; target 0 gets no entry at all.
Every `wrapped_function` closure reads the loop variable `func` late, after
the loop has finished, so all wrappers of one pass call the last target
iterated — the claim fails whenever two or more opaque targets are wrapped
together. -/
theorem wrapper_records_under_last_target :
    (invokeAt behOk 0 1 twoOpaque).2 = Except.ok 101 ∧
    alookup (get_results (invokeAt behOk 0 1 twoOpaque).1) 0 = none ∧
    snapLookup (invokeAt behOk 0 1 twoOpaque).1.heap
      (get_results (invokeAt behOk 0 1 twoOpaque).1) 1
      = some ⟨1, 1, ((1 : ℚ) : WithTop ℚ), 1⟩ := by
  refine ⟨?_, ?_, ?_⟩ <;>
    norm_num [snapLookup, get_results, invokeAt, invokeWrapper, twoOpaque, behOk,
      enable, isOpaque, initState, classifyTargets, setupBuiltinTracing,
      setupBuiltinStep, recordCall, statsRef, recordStats, alookup, aset,
      insertSet, FunctionStats.init]

/-- Claim C3, counterexample: with the single opaque target 7 wrapped and
the original raising, calling through the wrapper returns the very same
error and the *unchanged* state: no stats entry for 7 is ever created, so
`call_count` is not incremented — the failed call is exempt from
measurement, contradicting the claim. -/
theorem wrapper_error_skips_recording :
    invokeAt behBoom 7 1 oneOpaque = (oneOpaque, Except.error "boom") ∧
    get_results oneOpaque = [] := by
  constructor <;>
    norm_num [get_results, invokeAt, invokeWrapper, oneOpaque, behBoom, enable,
      isOpaque, initState, classifyTargets, setupBuiltinTracing, setupBuiltinStep,
      recordCall, statsRef, recordStats, alookup, aset, insertSet,
      FunctionStats.init]

/-- Claim C3, amended: when the wrapped original raises, the wrapper
propagates the identical error unchanged to the caller, but the call is
*not* measured: the tracer state (stats included) is left exactly as it was
before the call.  There is no `try`/`finally` around
`result = func(*args, **kwargs)`, so the recording lines are skipped on an
exception. -/
theorem wrapper_error_propagates_without_recording
    (st : TracerState) (beh : FnId → Except String Nat) (pid : Nat) (d : ℚ)
    (f : FnId) (e : String) (hp : st.passes[pid]? = some f)
    (hb : beh f = Except.error e) :
    invokeWrapper beh pid d st = (st, Except.error e) := by
  by_cases hen : st.enabled <;> simp [invokeWrapper, hp, hb, hen]

/-- Witness for the amended C3 theorem at a concrete input: the single
wrapper of `oneOpaque` (pass 0, cell 7) with an always-raising original. -/
theorem wrapper_error_propagates_without_recording_witness :
    oneOpaque.passes[0]? = some 7 ∧ behBoom 7 = Except.error "boom" ∧
    invokeWrapper behBoom 0 1 oneOpaque = (oneOpaque, Except.error "boom") := by
  have hp : oneOpaque.passes[0]? = some 7 := by
    norm_num [oneOpaque, enable, isOpaque, initState, classifyTargets,
      setupBuiltinTracing, setupBuiltinStep, alookup, aset, insertSet]
  exact ⟨hp, rfl,
    wrapper_error_propagates_without_recording oneOpaque behBoom 0 1 7 "boom" hp rfl⟩

/-- Claim C4, counterexample: the snapshot `get_results()` taken after the
first traced call of function 5 shows count 1 / total 2; after a *second*
traced call (duration 4), reading the *same, previously returned* snapshot
now shows count 2 / total 6 / max 4.  `dict(self._stats)` copies only the
key → object bindings, and the `FunctionStats` objects are mutated in
place, so a previously returned snapshot is not immutable. -/
theorem snapshot_changes_after_later_calls :
    snapLookup sessionOne.heap (get_results sessionOne) 5
      = some ⟨1, 2, ((2 : ℚ) : WithTop ℚ), 2⟩ ∧
    snapLookup (runEvents sessionOne [TEvent.call 101 5 0, TEvent.ret 101 4]).heap
      (get_results sessionOne) 5
      = some ⟨2, 6, ((2 : ℚ) : WithTop ℚ), 4⟩ := by
  constructor <;>
    norm_num [snapLookup, get_results, runEvents, trace_function, sessionOne,
      enable, isHookable, initState, classifyTargets, setupBuiltinTracing,
      recordCall, statsRef, recordStats, alookup, aset, aremove, insertSet,
      FunctionStats.init, min_def, max_def, WithTop.coe_le_coe]
  exact_mod_cast (by norm_num : (2 : ℚ) ≤ 4)

/-- Claim C4, amended: a snapshot returned by `get_results()`/`disable()` is
a shallow copy — its key set is frozen, but its entries alias the live
`FunctionStats` objects, so a call recorded afterwards to an identity the
snapshot already contains changes what the snapshot shows, from the old
aggregate `s` to exactly `recordStats s d`. -/
theorem snapshot_shares_live_stats {st : TracerState} {f : FnId} {r : Nat}
    {s : FunctionStats} (d : ℚ)
    (h1 : alookup st.stats f = some r) (h2 : st.heap[r]? = some s) :
    snapLookup st.heap (get_results st) f = some s ∧
    snapLookup (recordCall st f d).heap (get_results st) f = some (recordStats s d) := by
  have hr : r < st.heap.length := (List.getElem?_eq_some.mp h2).1
  constructor
  · simp [snapLookup, get_results, h1, h2]
  · rw [recordCall_of_mem h1 h2]
    simp [snapLookup, get_results, h1, List.getElem?_set_eq_of_lt _ hr]

/-- Witness for the amended C4 theorem at a concrete input: the snapshot of
`sessionOne` and a further recorded duration of 4. -/
theorem snapshot_shares_live_stats_witness :
    alookup sessionOne.stats 5 = some 0 ∧
    sessionOne.heap[0]? = some ⟨1, 2, ((2 : ℚ) : WithTop ℚ), 2⟩ ∧
    (snapLookup sessionOne.heap (get_results sessionOne) 5
        = some ⟨1, 2, ((2 : ℚ) : WithTop ℚ), 2⟩ ∧
      snapLookup (recordCall sessionOne 5 4).heap (get_results sessionOne) 5
        = some (recordStats ⟨1, 2, ((2 : ℚ) : WithTop ℚ), 2⟩ 4)) := by
  have h1 : alookup sessionOne.stats 5 = some 0 := by
    norm_num [sessionOne, runEvents, trace_function, enable, isHookable, initState,
      classifyTargets, setupBuiltinTracing, recordCall, statsRef, recordStats,
      alookup, aset, aremove, insertSet, FunctionStats.init]
  have h2 : sessionOne.heap[0]? = some ⟨1, 2, ((2 : ℚ) : WithTop ℚ), 2⟩ := by
    norm_num [sessionOne, runEvents, trace_function, enable, isHookable, initState,
      classifyTargets, setupBuiltinTracing, recordCall, statsRef, recordStats,
      alookup, aset, aremove, insertSet, FunctionStats.init]
  exact ⟨h1, h2, snapshot_shares_live_stats 4 h1 h2⟩

/-- Claim C5, counterexample: with target 7 wrapped and a third party having
rebound the module attribute to a foreign object (`foreign 99`), `disable()`
does not skip the entry — it overwrites the foreign binding with the saved
original: afterwards the location holds `orig 7`, not `foreign 99`, and no
warning path is taken (`_restore_builtin_functions` never compares the
current binding with the installed wrapper). -/
theorem restore_overwrites_foreign_binding :
    alookup (foreignRebind 7 99 oneOpaque).env 7 = some (Binding.foreign 99) ∧
    alookup ((disable (foreignRebind 7 99 oneOpaque)).1).env 7
      = some (Binding.orig 7) := by
  constructor <;>
    norm_num [foreignRebind, oneOpaque, disable, restoreBuiltinFunctions, enable,
      isOpaque, initState, classifyTargets, setupBuiltinTracing, setupBuiltinStep,
      alookup, aset, insertSet]

/-- Claim C5, amended: on restore, every saved original is written back at
its binding location *unconditionally* — whatever currently sits there,
including a foreign rebinding, is overwritten, and no warning is raised for
that case (the only warning in the code fires when the module lookup or
`setattr` itself throws). -/
theorem restore_rebinds_original_unconditionally {st : TracerState} {f g : FnId}
    (hnd : (st.originals.map Prod.fst).Nodup) (h : alookup st.originals f = some g) :
    alookup (restoreBuiltinFunctions st).env f = some (Binding.orig g) :=
  alookup_foldl_asetOrig st.originals f g st.env hnd h

/-- Witness for the amended C5 theorem at a concrete input: the rebound
state of the C5 counterexample. -/
theorem restore_rebinds_original_unconditionally_witness :
    ((foreignRebind 7 99 oneOpaque).originals.map Prod.fst).Nodup ∧
    alookup (foreignRebind 7 99 oneOpaque).originals 7 = some 7 ∧
    alookup (restoreBuiltinFunctions (foreignRebind 7 99 oneOpaque)).env 7
      = some (Binding.orig 7) := by
  have hnd : ((foreignRebind 7 99 oneOpaque).originals.map Prod.fst).Nodup := by
    norm_num [foreignRebind, oneOpaque, enable, isOpaque, initState,
      classifyTargets, setupBuiltinTracing, setupBuiltinStep, alookup, aset,
      insertSet]
  have h : alookup (foreignRebind 7 99 oneOpaque).originals 7 = some 7 := by
    norm_num [foreignRebind, oneOpaque, enable, isOpaque, initState,
      classifyTargets, setupBuiltinTracing, setupBuiltinStep, alookup, aset,
      insertSet]
  exact ⟨hnd, h, restore_rebinds_original_unconditionally hnd h⟩

/-- Claim C6: calling `update_functions` while tracing is disabled raises
`RuntimeError("Tracing is not enabled")` as its very first action, so the
engine state is returned unchanged and the previous snapshot is still what
`get_results()` yields. -/
theorem update_while_disabled_raises (isB : FnId → Bool) (fns : List FnId)
    (st : TracerState) (h : st.enabled = false) :
    update_functions isB fns st = (st, some "Tracing is not enabled") ∧
    get_results (update_functions isB fns st).1 = get_results st := by
  have h1 : update_functions isB fns st = (st, some "Tracing is not enabled") := by
    simp [update_functions, h]
  exact ⟨h1, by rw [h1]⟩

/-- Witness for C6 at a concrete input: a freshly constructed tracer is
disabled, and updating raises while leaving it unchanged. -/
theorem update_while_disabled_raises_witness :
    initState.enabled = false ∧
    (update_functions isOpaque [3] initState
        = (initState, some "Tracing is not enabled") ∧
      get_results (update_functions isOpaque [3] initState).1
        = get_results initState) :=
  ⟨rfl, update_while_disabled_raises isOpaque [3] initState rfl⟩

/-- Claim C7: for a hookable function `f` enabled for tracing, a recursive
self-call chain of depth `D` produces `D` independently keyed entry/exit
pairs — the call stack key is the activation's own frame id, so recursive
activations never collide — every pair is matched (the call stack drains
back to empty), and `call_count` for `f` equals `D` once the outermost call
has returned. -/
theorem recursive_chain_call_count (D : Nat) (f : FnId) (isB : FnId → Bool)
    (hB : isB f = false) :
    countOf (runEvents (enable isB (some [f]) initState) (recChain f 0 D)) f = D ∧
    (runEvents (enable isB (some [f]) initState) (recChain f 0 D)).callStack = [] := by
  have hst : enable isB (some [f]) initState
      = { initState with enabled := true, traced := [f] } := by
    simp [enable, initState, classifyTargets, insertSet, setupBuiltinTracing, hB]
  rw [hst]
  obtain ⟨hcs, _, _, hcnt⟩ :=
    runEvents_recChain f D 0 { initState with enabled := true, traced := [f] }
      (by simp) (fun j _ => rfl) (fun p hp => absurd hp (List.not_mem_nil p))
  refine ⟨?_, ?_⟩
  · rw [hcnt]
    norm_num [countOf, snapLookup, initState, alookup]
  · rw [hcs]
    rfl

/-- Witness for C7 at a concrete input: depth 2 on function 0, all targets
classified hookable. -/
theorem recursive_chain_call_count_witness :
    (fun _ : FnId => false) 0 = false ∧
    (countOf (runEvents (enable (fun _ => false) (some [0]) initState)
        (recChain 0 0 2)) 0 = 2 ∧
      (runEvents (enable (fun _ => false) (some [0]) initState)
        (recChain 0 0 2)).callStack = []) :=
  ⟨rfl, recursive_chain_call_count 2 0 (fun _ => false) rfl⟩

/-- Claim C8: for the aggregate of any non-empty sequence of non-negative
recorded durations, `min_time ≤ avg_time ≤ max_time` holds (the first
comparison in `WithTop ℚ`, where `min_time` lives; `avg_time` is
`total_time / call_count` there since the count is positive). -/
theorem min_le_avg_le_max (ds : List ℚ) (hne : ds ≠ [])
    (hpos : ∀ d ∈ ds, 0 ≤ d) :
    (statsOf ds).min_time ≤ (((statsOf ds).avg_time : ℚ) : WithTop ℚ) ∧
    (statsOf ds).avg_time ≤ (statsOf ds).max_time := by
  have _ := hpos
  have hcount : (statsOf ds).call_count = ds.length := by
    simpa [FunctionStats.init] using count_foldl_recordStats ds FunctionStats.init
  have hcpos : 0 < (statsOf ds).call_count := by
    rw [hcount]
    exact List.length_pos.mpr hne
  obtain ⟨hmax, hzero, hstats⟩ := statsBounds_foldl ds statsBounds_init
  rw [show List.foldl recordStats FunctionStats.init ds = statsOf ds from rfl]
    at hmax hzero hstats
  obtain ⟨m, hm, h1, h2⟩ := hstats hcpos
  have hcq : (0 : ℚ) < ((statsOf ds).call_count : ℚ) := by
    exact_mod_cast hcpos
  have havg : (statsOf ds).avg_time
      = (statsOf ds).total_time / ((statsOf ds).call_count : ℚ) := by
    simp [FunctionStats.avg_time, hcpos]
  constructor
  · rw [hm, havg]
    exact WithTop.coe_le_coe.mpr ((le_div_iff hcq).mpr h1)
  · rw [havg]
    exact (div_le_iff hcq).mpr h2

/-- Witness for C8 at a concrete input: durations 1 and 3. -/
theorem min_le_avg_le_max_witness :
    ([1, 3] : List ℚ) ≠ [] ∧ (∀ d ∈ ([1, 3] : List ℚ), 0 ≤ d) ∧
    ((statsOf [1, 3]).min_time ≤ (((statsOf [1, 3]).avg_time : ℚ) : WithTop ℚ) ∧
      (statsOf [1, 3]).avg_time ≤ (statsOf [1, 3]).max_time) := by
  have hne : ([1, 3] : List ℚ) ≠ [] := List.cons_ne_nil 1 [3]
  have hpos : ∀ d ∈ ([1, 3] : List ℚ), 0 ≤ d := by
    intro d hd
    rcases List.mem_cons.mp hd with h | h
    · rw [h]; norm_num
    · rw [List.mem_singleton.mp h]; norm_num
  exact ⟨hne, hpos, min_le_avg_le_max [1, 3] hne hpos⟩

/-- Claim C9: in every reachable tracer state, every `FunctionStats` entry
observable through a snapshot — returned by `get_results()` or by
`disable()` — has `call_count ≥ 1`: an entry is created only inside a
recording operation, which increments its count immediately. -/
theorem observable_entries_have_positive_count {st : TracerState}
    (hR : Reachable st) {snap : List (FnId × Nat)}
    (hsnap : snap = get_results st ∨ snap = (disable st).2)
    {f : FnId} {r : Nat} {s : FunctionStats}
    (h1 : alookup snap f = some r) (h2 : st.heap[r]? = some s) :
    1 ≤ s.call_count := by
  have hsnap2 : snap = get_results st := by
    rcases hsnap with h | h
    · exact h
    · rw [h, disable_snd]
  rw [hsnap2] at h1
  exact reachable_storeCountPos hR f r s h1 h2

/-- Witness for C9 at a concrete input: the state after one traced call in
`sessionOne`, whose single entry has count 1. -/
theorem observable_entries_have_positive_count_witness :
    alookup (get_results sessionOne) 5 = some 0 ∧
    sessionOne.heap[0]? = some ⟨1, 2, ((2 : ℚ) : WithTop ℚ), 2⟩ ∧
    1 ≤ (FunctionStats.mk 1 2 ((2 : ℚ) : WithTop ℚ) 2).call_count := by
  have hR : Reachable sessionOne := by
    have h : sessionOne
        = trace_function (trace_function (enable isHookable (some [5]) initState)
            (TEvent.call 100 5 0)) (TEvent.ret 100 2) := rfl
    rw [h]
    exact Reachable.hookEvent _ _ (Reachable.hookEvent _ _
      (Reachable.enable _ _ _ Reachable.init))
  have h1 : alookup (get_results sessionOne) 5 = some 0 := by
    norm_num [get_results, sessionOne, runEvents, trace_function, enable,
      isHookable, initState, classifyTargets, setupBuiltinTracing, recordCall,
      statsRef, recordStats, alookup, aset, aremove, insertSet, FunctionStats.init]
  have h2 : sessionOne.heap[0]? = some ⟨1, 2, ((2 : ℚ) : WithTop ℚ), 2⟩ := by
    norm_num [sessionOne, runEvents, trace_function, enable, isHookable,
      initState, classifyTargets, setupBuiltinTracing, recordCall, statsRef,
      recordStats, alookup, aset, aremove, insertSet, FunctionStats.init]
  exact ⟨h1, h2,
    observable_entries_have_positive_count hR (Or.inl rfl) h1 h2⟩

/-- Claim C10: `avg_time` is total — it never divides by zero: on a zero
count it returns 0 without dividing, and on a positive count it returns
`total_time / call_count`. -/
theorem avg_time_guards_zero_count (s : FunctionStats) :
    (s.call_count = 0 → s.avg_time = 0) ∧
    (0 < s.call_count → s.avg_time = s.total_time / (s.call_count : ℚ)) := by
  constructor
  · intro h
    simp [FunctionStats.avg_time, h]
  · intro h
    simp [FunctionStats.avg_time, h]

/-- Witness for C10 at concrete inputs: a zero-count object (average 0, no
division) and a two-call object (average 5/2). -/
theorem avg_time_guards_zero_count_witness :
    FunctionStats.avg_time ⟨0, 3, ⊤, 0⟩ = 0 ∧
    FunctionStats.avg_time ⟨2, 5, ((1 : ℚ) : WithTop ℚ), 4⟩ = 5 / 2 := by
  refine ⟨(avg_time_guards_zero_count ⟨0, 3, ⊤, 0⟩).1 rfl, ?_⟩
  rw [(avg_time_guards_zero_count ⟨2, 5, ((1 : ℚ) : WithTop ℚ), 4⟩).2 (by norm_num)]
  norm_num
